import Mathlib

/-!
Verification development for the homekeep scheduling engine.

The definitions below are a shallow embedding of the repository's
TypeScript scheduling code:
  - `src/lib/scheduling.ts` (recurrence calculator, urgency classifier,
    priority tables),
  - `src/screens/HomeScreen.tsx` (budget allocator `getBudgetedTasks`,
    sorter `getSortedActiveTasks`, completion handler `handleMarkDone`).

Dates.  The source manipulates JavaScript `Date` objects, always after
stripping the time of day to midnight (`setHours(0,0,0,0)`); we embed a
calendar date as a `(year, month, day)` triple in the proleptic Gregorian
calendar (month 0-based, day 1-based, exactly as JS `getMonth`/`getDate`
report them).  JS `Date` field setters (`setDate`, `setMonth`,
`setFullYear`) normalize out-of-range fields by rolling into adjacent
months/years; `mkDate` below implements exactly that normalization
(ECMAScript `MakeDay`: normalize the month by floored division, then count
`day - 1` days from the first of the resulting month).  Years are modelled
as naturals (the JS two-digit-year constructor quirk for years 0-99 and
negative years are outside the behavior the spec describes; rolling below
year 0 clamps, which no spec-relevant computation reaches).  Comparisons
between two midnight timestamps coincide with comparisons of the day
numbers `toRataDie` (days elapsed since Jan 1 of year 0).  Where a time of
day matters (the window-end comparison and the weekly pull-back check in
`calculateNextOccurrences`), the time of day of the start date is carried
as an explicit millisecond count `startTime`.
-/

/-- Leap year test of the proleptic Gregorian calendar (what JS `Date`
arithmetic implements). -/
def isLeap (y : Nat) : Bool :=
  (y % 4 == 0 && y % 100 != 0) || y % 400 == 0

/-- Days in month `m` (0-based) of a year with leap flag `l`. -/
def daysInMonthL (l : Bool) (m : Nat) : Nat :=
  if m = 1 then (if l then 29 else 28)
  else if m = 3 ∨ m = 5 ∨ m = 8 ∨ m = 10 then 30
  else 31

/-- Days from Jan 1 to the first day of month `m` (0-based) in a year with
leap flag `l`. -/
def daysBeforeMonthL (l : Bool) : Nat → Nat
  | 0 => 0
  | m + 1 => daysBeforeMonthL l m + daysInMonthL l m

/-- Number of days in year `y`. -/
def daysInYear (y : Nat) : Nat := if isLeap y then 366 else 365

/-- Days from Jan 1 of year 0 to Jan 1 of year `y`. -/
def daysBeforeYear : Nat → Nat
  | 0 => 0
  | y + 1 => daysBeforeYear y + daysInYear y

/-- A calendar date, as a JS `Date` at local midnight reports it:
`year` = `getFullYear()`, `month` = `getMonth()` (0-based),
`day` = `getDate()` (1-based). -/
structure Date where
  year : Nat
  month : Nat
  day : Nat
deriving DecidableEq, Repr

/-- A `Date` is in normal form: the field values a real JS `Date` can
report. -/
def Date.Valid (dt : Date) : Prop :=
  dt.month ≤ 11 ∧ 1 ≤ dt.day ∧ dt.day ≤ daysInMonthL (isLeap dt.year) dt.month

instance (dt : Date) : Decidable dt.Valid := by
  unfold Date.Valid; infer_instance

/-- Day number of a date: days elapsed since Jan 1 of year 0 (which the
Gregorian week cycle makes a Saturday).  Midnight timestamp comparisons of
JS `Date`s coincide with comparisons of this number. -/
def toRataDie (dt : Date) : Int :=
  (daysBeforeYear dt.year : Int) + daysBeforeMonthL (isLeap dt.year) dt.month + dt.day - 1

/-- Forward day-of-month normalization: starting from day number `d` (≥ 1)
counted inside month `(y, m)`, roll into following months while `d` exceeds
the month length.  `fuel ≥ d` guarantees enough steps (each roll removes at
least 28 days). -/
def normForwardGo : Nat → Nat → Nat → Nat → Date
  | 0, y, m, d => ⟨y, m, d⟩
  | fuel + 1, y, m, d =>
    if daysInMonthL (isLeap y) m < d then
      if m = 11 then normForwardGo fuel (y + 1) 0 (d - daysInMonthL (isLeap y) m)
      else normForwardGo fuel y (m + 1) (d - daysInMonthL (isLeap y) m)
    else ⟨y, m, d⟩

/-- Backward day-of-month normalization for `d ≤ 0`: borrow days from the
preceding months.  Clamps at Jan 1 of year 0 (unreachable from the
engine's computations, which never roll that far back). -/
def normBackwardGo : Nat → Nat → Nat → Int → Date
  | 0, y, m, _ => ⟨y, m, 1⟩
  | fuel + 1, y, m, d =>
    if 1 ≤ d then ⟨y, m, d.toNat⟩
    else if m = 0 then
      if y = 0 then ⟨0, 0, 1⟩
      else normBackwardGo fuel (y - 1) 11 (d + daysInMonthL (isLeap (y - 1)) 11)
    else normBackwardGo fuel y (m - 1) (d + daysInMonthL (isLeap y) (m - 1))

/-- ECMAScript `MakeDay` normalization: what `new Date(y, m, d)` and the
`setDate`/`setMonth`/`setFullYear` setters compute.  The month is first
normalized (`y + m / 12`, `m % 12`), then day `d` is counted from the
first of that month, rolling across month boundaries in either
direction. -/
def mkDate (y m : Nat) (d : Int) : Date :=
  let y2 := y + m / 12
  let m2 := m % 12
  if 1 ≤ d then normForwardGo d.toNat y2 m2 d.toNat
  else normBackwardGo (1 - d).toNat y2 m2 d

/-- JS `Date.prototype.getDay`: 0 = Sunday … 6 = Saturday. -/
def getDay (dt : Date) : Int := (toRataDie dt + 6) % 7

/-- The twelve frequency values of `src/lib/database.types.ts`, plus a
constructor standing for any other runtime string (the TypeScript code
casts loosely, and the spec discusses unrecognized frequency values).  The
scheduling code inspects a frequency string only through equality with the
twelve literals and `startsWith('seasonal_')`, so an unrecognized string is
abstracted by whether it carries the `seasonal_` prefix. -/
inductive Freq where
  | daily | weekly | biweekly | monthly | semi_monthly | quarterly
  | seasonal_spring | seasonal_summer | seasonal_fall | seasonal_winter
  | semi_annual | annual
  | unknown (seasonalPrefix : Bool)
deriving DecidableEq, Repr

/-- Whether the frequency is one of the twelve recognized literals. -/
def Freq.isKnown : Freq → Bool
  | .unknown _ => false
  | _ => true

/-- `frequency.startsWith('seasonal_')`. -/
def Freq.isSeasonalPrefix : Freq → Bool
  | .seasonal_spring | .seasonal_summer | .seasonal_fall | .seasonal_winter => true
  | .unknown b => b
  | _ => false

/-- `getSeasonStartDate` of `src/lib/scheduling.ts`: fixed solstice/equinox
date of the season in the given year; any other string falls to Jan 1. -/
def getSeasonStartDate (season : Freq) (year : Nat) : Date :=
  match season with
  | .seasonal_spring => mkDate year 2 20
  | .seasonal_summer => mkDate year 5 21
  | .seasonal_fall => mkDate year 8 22
  | .seasonal_winter => mkDate year 11 21
  | _ => mkDate year 0 1

/-- `alignToWeekday` of `src/lib/scheduling.ts`: advance to the next
occurrence of `targetDay` strictly after `date` (a full week when already
on that weekday). -/
def alignToWeekday (date : Date) (targetDay : Nat) : Date :=
  let currentDay := getDay date
  let i : Int := (targetDay : Int) - currentDay
  let daysUntilTarget : Int := if i ≤ 0 then i + 7 else i
  mkDate date.year date.month ((date.day : Int) + daysUntilTarget)

/-- `calculateNextDueDate` of `src/lib/scheduling.ts`.  The source first
strips the time of day (`setHours(0,0,0,0)`), so the argument is already a
calendar date here. -/
def calculateNextDueDate (frequency : Freq) (afterDate : Date)
    (preferredWeekday : Option Nat) : Date :=
  let next := afterDate
  match frequency with
  | .daily => mkDate next.year next.month ((next.day : Int) + 1)
  | .weekly =>
    match preferredWeekday with
    | some w => alignToWeekday next w
    | none => mkDate next.year next.month ((next.day : Int) + 7)
  | .biweekly => mkDate next.year next.month ((next.day : Int) + 14)
  | .monthly => mkDate next.year (next.month + 1) next.day
  | .semi_monthly => mkDate next.year next.month ((next.day : Int) + 15)
  | .quarterly => mkDate next.year (next.month + 3) next.day
  | .semi_annual => mkDate next.year (next.month + 6) next.day
  | .annual => mkDate (next.year + 1) next.month next.day
  | .seasonal_spring | .seasonal_summer | .seasonal_fall | .seasonal_winter =>
    getSeasonStartDate frequency (next.year + 1)
  | .unknown _ => mkDate next.year next.month ((next.day : Int) + 1)

/-- One pass of the `switch` in the `while` loop of
`calculateNextOccurrences`.  Note the source `switch` has no `default`
case: an unrecognized frequency leaves `current` unchanged. -/
def stepOccurrence (frequency : Freq) (current : Date) : Date :=
  match frequency with
  | .daily => mkDate current.year current.month ((current.day : Int) + 1)
  | .weekly => mkDate current.year current.month ((current.day : Int) + 7)
  | .biweekly => mkDate current.year current.month ((current.day : Int) + 14)
  | .monthly => mkDate current.year (current.month + 1) current.day
  | .semi_monthly => mkDate current.year current.month ((current.day : Int) + 15)
  | .quarterly => mkDate current.year (current.month + 3) current.day
  | .seasonal_spring | .seasonal_summer | .seasonal_fall | .seasonal_winter
  | .annual => mkDate (current.year + 1) current.month current.day
  | .semi_annual => mkDate current.year (current.month + 6) current.day
  | .unknown _ => current

/-- The `while (current <= endDate)` loop of `calculateNextOccurrences`,
with an explicit step budget.  `none` means the budget ran out before the
loop condition failed; since the loop body allocates on every iteration, a
run that exhausts every finite budget is a non-terminating run of the
source loop.  (`current` is always at midnight, so `current <= endDate`
compares day numbers regardless of the window end's time of day.) -/
def occurrencesGo (frequency : Freq) (endD : Date) : Nat → Date → Option (List Date)
  | 0, _ => none
  | fuel + 1, current =>
    if toRataDie current ≤ toRataDie endD then
      (occurrencesGo frequency endD fuel (stepOccurrence frequency current)).map
        (fun dates => current :: dates)
    else some []

/-- `calculateNextOccurrences` of `src/lib/scheduling.ts`.  `startTime` is
the time of day (ms past midnight) of the `startDate` argument, which the
source keeps inside `startDate` and `endDate` while `current` is reset to
midnight; it matters only in the `checkDate >= startDate` pull-back
comparison.  The loop budget `span + 2` covers every terminating run: each
recognized frequency advances `current` by at least one day per
iteration. -/
def calculateNextOccurrences (frequency : Freq) (startDate : Date) (startTime : Nat)
    (months : Nat) (preferredWeekday : Option Nat) : Option (List Date) :=
  let endD := mkDate startDate.year (startDate.month + months) startDate.day
  let cur0 := startDate
  let cur1 :=
    if frequency.isSeasonalPrefix then
      let year := cur0.year
      let seasonDate := getSeasonStartDate frequency year
      if toRataDie seasonDate < toRataDie cur0 then getSeasonStartDate frequency (year + 1)
      else seasonDate
    else cur0
  let cur2 :=
    match frequency, preferredWeekday with
    | .weekly, some w =>
      let aligned := alignToWeekday cur1 w
      let checkDate := mkDate aligned.year aligned.month ((aligned.day : Int) - 7)
      if toRataDie startDate < toRataDie checkDate ∨
          (toRataDie checkDate = toRataDie startDate ∧ startTime = 0) then checkDate
      else aligned
    | _, _ => cur1
  occurrencesGo frequency endD ((toRataDie endD - toRataDie cur2).toNat + 2) cur2

/-- `TaskUrgencyTier` of `src/lib/scheduling.ts`. -/
inductive TaskUrgencyTier where
  | overdue | urgent | primary | get_ahead
deriving DecidableEq, Repr

/-- `URGENCY_WINDOWS` of `src/lib/scheduling.ts`: a record keyed by the
twelve frequency strings; lookup of any other key misses. -/
def URGENCY_WINDOWS : Freq → Option Nat
  | .daily => some 0
  | .weekly => some 0
  | .biweekly => some 3
  | .monthly => some 7
  | .semi_monthly => some 5
  | .quarterly => some 10
  | .seasonal_spring => some 14
  | .seasonal_summer => some 14
  | .seasonal_fall => some 14
  | .seasonal_winter => some 14
  | .semi_annual => some 14
  | .annual => some 14
  | .unknown _ => none

/-- `FREQUENCY_PRIORITY` of `src/lib/scheduling.ts` (lookup misses off the
twelve keys). -/
def FREQUENCY_PRIORITY : Freq → Option Nat
  | .daily => some 1
  | .weekly => some 2
  | .biweekly => some 3
  | .semi_monthly => some 4
  | .monthly => some 5
  | .quarterly => some 6
  | .seasonal_spring => some 7
  | .seasonal_summer => some 7
  | .seasonal_fall => some 7
  | .seasonal_winter => some 7
  | .semi_annual => some 8
  | .annual => some 9
  | .unknown _ => none

/-- `getFrequencyPriority`: `FREQUENCY_PRIORITY[frequency] ?? 10`.  The
argument is `Option Freq` because the caller in `HomeScreen.tsx` passes
`(task.frequency || task.core_task?.frequency) as Frequency`, which can be
`undefined` at runtime. -/
def getFrequencyPriority : Option Freq → Nat
  | some f => (FREQUENCY_PRIORITY f).getD 10
  | none => 10

/-- `getDaysUntilDue` of `src/lib/scheduling.ts`: both dates at midnight,
the ms difference divided by a day's ms is exactly the day-number
difference.  `today` is the wall-clock date, made an explicit argument. -/
def getDaysUntilDue (today dueDate : Date) : Int :=
  toRataDie dueDate - toRataDie today

/-- `getTaskUrgencyTier` of `src/lib/scheduling.ts`.  A `none` frequency
stands for a runtime `undefined` (window lookup misses, defaulted by
`?? 7`; the `daily`/`weekly` equality tests fail). -/
def getTaskUrgencyTier (today : Date) (frequency : Option Freq)
    (dueDate : Option Date) : TaskUrgencyTier :=
  match dueDate with
  | none => .get_ahead
  | some due =>
    let daysUntil := getDaysUntilDue today due
    if daysUntil < 0 then .overdue
    else if (frequency = some .daily ∨ frequency = some .weekly) ∧ daysUntil = 0 then .primary
    else
      let urgencyWindow := ((frequency.bind URGENCY_WINDOWS).getD 7 : Int)
      if daysUntil ≤ urgencyWindow then .urgent
      else .get_ahead

/-!  Embedding of `src/screens/HomeScreen.tsx` (allocator and completion). -/

/-- A user task as `HomeScreen.tsx` consumes it.  `frequency` is the
resolved `task.frequency || task.core_task?.frequency` (possibly
`undefined`, hence `Option`); `estimated_time` likewise resolves through
the core task and may be absent. -/
structure UserTask where
  id : Nat
  frequency : Option Freq
  estimated_time : Option Nat
  preferred_weekday : Option Nat
deriving DecidableEq, Repr

/-- `task.estimated_time || 10`: JS `||` also replaces an explicit 0. -/
def taskTimeOf (task : UserTask) : Nat :=
  match task.estimated_time with
  | some t => if t = 0 then 10 else t
  | none => 10

/-- `getTaskTier` of `HomeScreen.tsx`: classify using the earliest pending
due date recorded for the task (`pendingTaskMap.get(task.id) || null`). -/
def getTaskTier (pendingMap : Nat → Option Date) (today : Date) (task : UserTask) :
    TaskUrgencyTier :=
  getTaskUrgencyTier today task.frequency (pendingMap task.id)

/-- The `tierOrder` record inside `getSortedActiveTasks`. -/
def tierOrder : TaskUrgencyTier → Nat
  | .overdue => 0
  | .urgent => 1
  | .primary => 2
  | .get_ahead => 3

/-- The comparator of `getSortedActiveTasks`: urgency tier, then frequency
priority, then estimated minutes, each ascending. -/
def compareTasks (pendingMap : Nat → Option Date) (today : Date) (a b : UserTask) : Int :=
  let aTier := tierOrder (getTaskTier pendingMap today a)
  let bTier := tierOrder (getTaskTier pendingMap today b)
  if aTier ≠ bTier then (aTier : Int) - (bTier : Int)
  else
    let aFreqPriority := getFrequencyPriority a.frequency
    let bFreqPriority := getFrequencyPriority b.frequency
    if aFreqPriority ≠ bFreqPriority then (aFreqPriority : Int) - (bFreqPriority : Int)
    else (taskTimeOf a : Int) - (taskTimeOf b : Int)

/-- `getSortedActiveTasks` of `HomeScreen.tsx`: drop tasks completed today,
sort by the comparator (a stable sort, as ECMAScript `Array.sort` is). -/
def getSortedActiveTasks (pendingMap : Nat → Option Date) (today : Date)
    (completedTaskIds : List Nat) (tasks : List UserTask) : List UserTask :=
  (tasks.filter (fun t => !(completedTaskIds.contains t.id))).mergeSort
    (fun a b => compareTasks pendingMap today a b ≤ 0)

/-- Result record of `getBudgetedTasks`. -/
structure BudgetResult where
  budgeted : List UserTask
  overflow : List UserTask
  totalTime : Nat
  overdueCount : Nat
  overdueInOverflow : Nat
deriving DecidableEq, Repr

/-- The `for (const task of sorted)` loop of `getBudgetedTasks`, carrying
the running total `currentTime`. -/
def allocGo (pendingMap : Nat → Option Date) (today : Date) (budget : Nat) :
    List UserTask → Nat → BudgetResult
  | [], currentTime => ⟨[], [], currentTime, 0, 0⟩
  | task :: rest, currentTime =>
    let tier := getTaskTier pendingMap today task
    let taskTime := taskTimeOf task
    if currentTime + taskTime ≤ budget then
      let r := allocGo pendingMap today budget rest (currentTime + taskTime)
      { r with
        budgeted := task :: r.budgeted
        overdueCount := if tier = .overdue then r.overdueCount + 1 else r.overdueCount }
    else
      let r := allocGo pendingMap today budget rest currentTime
      { r with
        overflow := task :: r.overflow
        overdueInOverflow :=
          if tier = .overdue then r.overdueInOverflow + 1 else r.overdueInOverflow }

/-- `getBudgetedTasks` of `HomeScreen.tsx`: walk the sorted active tasks
once, admitting a task exactly when it fits in the remaining budget. -/
def getBudgetedTasks (pendingMap : Nat → Option Date) (today : Date)
    (completedTaskIds : List Nat) (tasks : List UserTask) (dailyTimeBudget : Nat) :
    BudgetResult :=
  allocGo pendingMap today dailyTimeBudget
    (getSortedActiveTasks pendingMap today completedTaskIds tasks) 0

/-!  Completion lifecycle (`handleMarkDone` of `HomeScreen.tsx`). -/

/-- Status column of a `task_events` row. -/
inductive EventStatus where
  | pending | completed | skipped
deriving DecidableEq, Repr

/-- A `task_events` row as this screen writes and reads it. -/
structure TaskEventRow where
  user_task_id : Nat
  status : EventStatus
  due_date : Date
  completed_at : Option Date
deriving DecidableEq, Repr

/-- A write issued to the store: `handleMarkDone` only ever issues
inserts, but the update form is represented so that its absence is a
statement about the code rather than about the vocabulary. -/
inductive StoreOp where
  | insertRow (row : TaskEventRow)
  | updateRow (eventId : Nat) (status : EventStatus) (completed_at : Option Date)
deriving DecidableEq, Repr

def StoreOp.isUpdate : StoreOp → Bool
  | .insertRow _ => false
  | .updateRow _ _ _ => true

/-- The store: rows keyed by an id assigned at insertion. -/
abbrev Store := List (Nat × TaskEventRow)

def applyOp (store : Store) : StoreOp → Store
  | .insertRow row => store ++ [(store.length, row)]
  | .updateRow eventId status completed_at =>
    store.map (fun p =>
      if p.1 = eventId then (p.1, { p.2 with status := status, completed_at := completed_at })
      else p)

def applyOps (store : Store) : List StoreOp → Store
  | [] => store
  | op :: ops => applyOps (applyOp store op) ops

/-- The rows a "pending occurrences of this task" read returns. -/
def pendingEventsFor (store : Store) (taskId : Nat) : Store :=
  store.filter (fun p => p.2.user_task_id = taskId && p.2.status == EventStatus.pending)

/-- The completed-event row the first insert of `handleMarkDone` writes:
status `completed`, `due_date` today, `completed_at` now. -/
def markDoneCompletedRow (task : UserTask) (today : Date) : TaskEventRow :=
  ⟨task.id, .completed, today, some today⟩

/-- The pending-event row the second insert of `handleMarkDone` writes:
due at `calculateNextDueDate(frequency, now, weekly ? preferred_weekday :
undefined)`. -/
def markDonePendingRow (task : UserTask) (frequency : Freq) (today : Date) : TaskEventRow :=
  ⟨task.id, .pending,
    calculateNextDueDate frequency today
      (if frequency = .weekly then task.preferred_weekday else none),
    none⟩

/-- The store writes `handleMarkDone` issues on its success path. -/
def handleMarkDoneOps (task : UserTask) (today : Date) : List StoreOp :=
  StoreOp.insertRow (markDoneCompletedRow task today) ::
    (match task.frequency with
     | some f => [StoreOp.insertRow (markDonePendingRow task f today)]
     | none => [])

/-- Outcome of a `handleMarkDone` call: the local completed-set, the
store, whether the scheduling failure was only warned about
(`console.warn`), and whether the user-facing error alert fired (the
`catch` branch, which also reverts the optimistic update). -/
structure MarkDoneResult where
  completedTaskIds : List Nat
  store : Store
  warned : Bool
  alerted : Bool

/-- `handleMarkDone` of `HomeScreen.tsx` as a state transition.
`insertError`/`nextError` say whether the first (completion) and second
(next-occurrence) inserts fail; a failed insert writes nothing.  The
optimistic set-add happens first; only the `catch` branch (reached by a
`throw` on the completion insert) reverts it. -/
def handleMarkDone (store : Store) (completedTaskIds : List Nat) (task : UserTask)
    (today : Date) (insertError nextError : Bool) : MarkDoneResult :=
  let optimistic :=
    if completedTaskIds.contains task.id then completedTaskIds
    else task.id :: completedTaskIds
  if insertError then
    { completedTaskIds := optimistic.filter (fun i => i ≠ task.id)
      store := store
      warned := false
      alerted := true }
  else
    let store1 := applyOp store (.insertRow (markDoneCompletedRow task today))
    match task.frequency with
    | none =>
      { completedTaskIds := optimistic, store := store1, warned := false, alerted := false }
    | some f =>
      if nextError then
        { completedTaskIds := optimistic, store := store1, warned := true, alerted := false }
      else
        { completedTaskIds := optimistic
          store := applyOp store1 (.insertRow (markDonePendingRow task f today))
          warned := false
          alerted := false }

/-!  Concrete instances used by the scenario parts of the claims. -/

/-- Scenario wall-clock date (day numbers are what matter, so a small year
keeps kernel evaluation cheap). -/
def exToday : Date := ⟨5, 0, 10⟩

/-- Scenario pending-occurrence map: task 1 due yesterday, task 2 due in 5
days, tasks 3 and 4 due today. -/
def exPendingMap : Nat → Option Date := fun i =>
  if i = 1 then some ⟨5, 0, 9⟩
  else if i = 2 then some ⟨5, 0, 15⟩
  else if i = 3 ∨ i = 4 then some ⟨5, 0, 10⟩
  else none

/-- Scenario task: overdue, 30 estimated minutes. -/
def exOverdue : UserTask := ⟨1, some .monthly, some 30, none⟩

/-- Scenario task: urgent (monthly, due in 5 ≤ 7 days), 20 minutes. -/
def exUrgent : UserTask := ⟨2, some .monthly, some 20, none⟩

/-- Scenario task: primary (daily, due today), 40 minutes. -/
def exPrimary : UserTask := ⟨3, some .daily, some 40, none⟩

/-- Scenario task: primary (daily, due today), 5 minutes. -/
def exQuick : UserTask := ⟨4, some .daily, some 5, none⟩

/-- Task used by the completion-lifecycle counterexample. -/
def c1Task : UserTask := ⟨1, some .monthly, some 20, none⟩

/-- Wall-clock date of the completion-lifecycle counterexample. -/
def c1Today : Date := ⟨5, 0, 15⟩

/-- Store before completion: exactly one pending occurrence of task 1. -/
def c1Store : Store := [(0, ⟨1, .pending, ⟨5, 0, 14⟩, none⟩)]

/-- Minutes of a budgeted selection. -/
def sumTimes (l : List UserTask) : Nat := (l.map taskTimeOf).sum

/-- The composite sort key the comparator of `getSortedActiveTasks`
realizes: (urgency-tier rank, frequency priority, estimated minutes). -/
def taskKey (pendingMap : Nat → Option Date) (today : Date) (t : UserTask) :
    Nat × Nat × Nat :=
  (tierOrder (getTaskTier pendingMap today t), getFrequencyPriority t.frequency, taskTimeOf t)

/-- Strict lexicographic order on the composite key. -/
def lexLt : Nat × Nat × Nat → Nat × Nat × Nat → Prop
  | (a1, a2, a3), (b1, b2, b3) => a1 < b1 ∨ (a1 = b1 ∧ (a2 < b2 ∨ (a2 = b2 ∧ a3 < b3)))

/-- Day number of the first of month `m` of year `y`. -/
def monthStartRD (y m : Nat) : Nat :=
  daysBeforeYear y + daysBeforeMonthL (isLeap y) m

/-- Day number of the first of the month with linear index `i` = 12·year +
month. -/
def msIdx (i : Nat) : Nat := monthStartRD (i / 12) (i % 12)

/-!  Calendar arithmetic lemmas. -/

theorem daysInMonthL_ge (l : Bool) (m : Nat) : 28 ≤ daysInMonthL l m := by
  unfold daysInMonthL
  split_ifs <;> omega

theorem daysBeforeMonthL_twelve (l : Bool) :
    daysBeforeMonthL l 12 = if l then 366 else 365 := by
  cases l <;> rfl

theorem daysInYear_eq (y : Nat) : daysInYear y = daysBeforeMonthL (isLeap y) 12 := by
  rw [daysBeforeMonthL_twelve, daysInYear]

theorem daysBeforeMonthL_mono (l : Bool) {a b : Nat} (h : a ≤ b) :
    daysBeforeMonthL l a ≤ daysBeforeMonthL l b := by
  induction b with
  | zero =>
    have ha : a = 0 := by omega
    subst ha
    exact Nat.le_refl _
  | succ n ih =>
    rcases Nat.eq_or_lt_of_le h with h1 | h1
    · subst h1
      exact Nat.le_refl _
    · have h2 := ih (by omega)
      have h3 : daysBeforeMonthL l (n + 1) = daysBeforeMonthL l n + daysInMonthL l n := rfl
      omega

theorem monthStartRD_succ (y m : Nat) :
    monthStartRD y (m + 1) = monthStartRD y m + daysInMonthL (isLeap y) m := by
  unfold monthStartRD
  have : daysBeforeMonthL (isLeap y) (m + 1) =
      daysBeforeMonthL (isLeap y) m + daysInMonthL (isLeap y) m := rfl
  omega

theorem monthStartRD_year (y : Nat) :
    monthStartRD (y + 1) 0 = monthStartRD y 11 + daysInMonthL (isLeap y) 11 := by
  unfold monthStartRD
  have h1 : daysBeforeYear (y + 1) = daysBeforeYear y + daysInYear y := rfl
  have h2 : daysInYear y = daysBeforeMonthL (isLeap y) 12 := daysInYear_eq y
  have h3 : daysBeforeMonthL (isLeap y) 12 =
      daysBeforeMonthL (isLeap y) 11 + daysInMonthL (isLeap y) 11 := rfl
  have h4 : daysBeforeMonthL (isLeap (y + 1)) 0 = 0 := rfl
  omega

theorem msIdx_succ (i : Nat) : msIdx i < msIdx (i + 1) := by
  rcases Nat.lt_or_ge (i % 12) 11 with h | h
  · have h1 : (i + 1) / 12 = i / 12 := by omega
    have h2 : (i + 1) % 12 = i % 12 + 1 := by omega
    unfold msIdx
    rw [h1, h2, monthStartRD_succ]
    have := daysInMonthL_ge (isLeap (i / 12)) (i % 12)
    omega
  · have h0 : i % 12 = 11 := by omega
    have h1 : (i + 1) / 12 = i / 12 + 1 := by omega
    have h2 : (i + 1) % 12 = 0 := by omega
    unfold msIdx
    rw [h1, h2, h0, monthStartRD_year]
    have := daysInMonthL_ge (isLeap (i / 12)) 11
    omega

theorem msIdx_strictMono : StrictMono msIdx :=
  strictMono_nat_of_lt_succ msIdx_succ

theorem monthStartRD_eq_msIdx (y m : Nat) (hm : m ≤ 11) :
    monthStartRD y m = msIdx (12 * y + m) := by
  have h1 : (12 * y + m) / 12 = y := by omega
  have h2 : (12 * y + m) % 12 = m := by omega
  unfold msIdx
  rw [h1, h2]

theorem toRataDie_mk (y m d : Nat) :
    toRataDie ⟨y, m, d⟩ = (monthStartRD y m : Int) + d - 1 := by
  unfold toRataDie monthStartRD
  push_cast
  ring

/-!  Normalization lemmas for `mkDate`. -/

theorem normForwardGo_rd (fuel : Nat) :
    ∀ y m d : Nat, 1 ≤ d → d ≤ fuel → m ≤ 11 →
      toRataDie (normForwardGo fuel y m d) = (monthStartRD y m : Int) + d - 1 := by
  induction fuel with
  | zero => intro y m d h1 h2 _; omega
  | succ fuel ih =>
    intro y m d h1 h2 hm
    unfold normForwardGo
    by_cases hlt : daysInMonthL (isLeap y) m < d
    · rw [if_pos hlt]
      have hge := daysInMonthL_ge (isLeap y) m
      by_cases h11 : m = 11
      · rw [if_pos h11]
        rw [ih (y + 1) 0 (d - daysInMonthL (isLeap y) m) (by omega) (by omega) (by omega)]
        subst h11
        have := monthStartRD_year y
        have hc : ((d - daysInMonthL (isLeap y) 11 : Nat) : Int) =
            (d : Int) - daysInMonthL (isLeap y) 11 := by omega
        omega
      · rw [if_neg h11]
        rw [ih y (m + 1) (d - daysInMonthL (isLeap y) m) (by omega) (by omega) (by omega)]
        have := monthStartRD_succ y m
        have hc : ((d - daysInMonthL (isLeap y) m : Nat) : Int) =
            (d : Int) - daysInMonthL (isLeap y) m := by omega
        omega
    · rw [if_neg hlt, toRataDie_mk]

theorem valid_mk (y m d : Nat) (hm : m ≤ 11) (h1 : 1 ≤ d)
    (h2 : d ≤ daysInMonthL (isLeap y) m) : (Date.mk y m d).Valid :=
  ⟨hm, h1, h2⟩

theorem normForwardGo_valid (fuel : Nat) :
    ∀ y m d : Nat, 1 ≤ d → d ≤ fuel → m ≤ 11 →
      (normForwardGo fuel y m d).Valid := by
  induction fuel with
  | zero => intro y m d h1 h2 _; omega
  | succ fuel ih =>
    intro y m d h1 h2 hm
    unfold normForwardGo
    by_cases hlt : daysInMonthL (isLeap y) m < d
    · rw [if_pos hlt]
      have hge := daysInMonthL_ge (isLeap y) m
      by_cases h11 : m = 11
      · rw [if_pos h11]
        exact ih (y + 1) 0 _ (by omega) (by omega) (by omega)
      · rw [if_neg h11]
        exact ih y (m + 1) _ (by omega) (by omega) (by omega)
    · rw [if_neg hlt]
      exact valid_mk y m d hm h1 (by omega)

theorem normBackwardGo_valid (fuel : Nat) :
    ∀ (y m : Nat) (d : Int), m ≤ 11 → d ≤ daysInMonthL (isLeap y) m →
      (normBackwardGo fuel y m d).Valid := by
  induction fuel with
  | zero =>
    intro y m d hm _
    exact valid_mk y m 1 hm (Nat.le_refl 1) (by have := daysInMonthL_ge (isLeap y) m; omega)
  | succ fuel ih =>
    intro y m d hm hd
    unfold normBackwardGo
    by_cases h1 : 1 ≤ d
    · rw [if_pos h1]
      exact valid_mk y m d.toNat hm (by omega) (by omega)
    · rw [if_neg h1]
      by_cases hm0 : m = 0
      · rw [if_pos hm0]
        by_cases hy0 : y = 0
        · rw [if_pos hy0]
          exact valid_mk 0 0 1 (by omega) (by omega)
            (by have := daysInMonthL_ge (isLeap 0) 0; omega)
        · rw [if_neg hy0]
          exact ih (y - 1) 11 _ (by omega) (by omega)
      · rw [if_neg hm0]
        exact ih y (m - 1) _ (by omega) (by omega)

theorem mkDate_valid (y m : Nat) (d : Int) : (mkDate y m d).Valid := by
  unfold mkDate
  by_cases h1 : 1 ≤ d
  · rw [if_pos h1]
    exact normForwardGo_valid _ _ _ _ (by omega) (Nat.le_refl _) (by omega)
  · rw [if_neg h1]
    refine normBackwardGo_valid _ _ _ _ (by omega) ?_
    have := daysInMonthL_ge (isLeap (y + m / 12)) (m % 12)
    omega

theorem toRataDie_mkDate (y m : Nat) (d : Int) (h1 : 1 ≤ d) :
    toRataDie (mkDate y m d) = (msIdx (12 * y + m) : Int) + d - 1 := by
  unfold mkDate
  rw [if_pos h1]
  rw [normForwardGo_rd _ _ _ _ (by omega) (Nat.le_refl _) (by omega)]
  rw [monthStartRD_eq_msIdx _ _ (by omega)]
  have he : 12 * (y + m / 12) + m % 12 = 12 * y + m := by omega
  rw [he]
  omega

theorem toRataDie_mkDate_sameMonth (y m : Nat) (d : Int) (h1 : 1 ≤ d) (hm : m ≤ 11) :
    toRataDie (mkDate y m d) = (monthStartRD y m : Int) + d - 1 := by
  rw [toRataDie_mkDate y m d h1, monthStartRD_eq_msIdx y m hm]

/-- Day numbers identify a date with its month-start day count.  For a
valid date the three setter patterns of the source advance the day number
as the spec's calendar reading expects. -/
theorem toRataDie_eq_monthStart (dt : Date) :
    toRataDie dt = (monthStartRD dt.year dt.month : Int) + dt.day - 1 := by
  cases dt
  exact toRataDie_mk _ _ _

theorem rd_setDate (dt : Date) (k : Int) (hv : dt.Valid)
    (hk : 1 ≤ (dt.day : Int) + k) :
    toRataDie (mkDate dt.year dt.month ((dt.day : Int) + k)) = toRataDie dt + k := by
  obtain ⟨hm, hd1, hd2⟩ := hv
  rw [toRataDie_mkDate_sameMonth _ _ _ hk hm, toRataDie_eq_monthStart]
  omega

theorem rd_setMonth (dt : Date) (k : Nat) (hv : dt.Valid) (hk : 1 ≤ k) :
    toRataDie dt < toRataDie (mkDate dt.year (dt.month + k) dt.day) := by
  obtain ⟨hm, hd1, hd2⟩ := hv
  rw [toRataDie_mkDate _ _ _ (by omega), toRataDie_eq_monthStart,
    monthStartRD_eq_msIdx _ _ hm]
  have hlt : msIdx (12 * dt.year + dt.month) < msIdx (12 * dt.year + (dt.month + k)) :=
    msIdx_strictMono (by omega)
  have ha : 12 * dt.year + (dt.month + k) = 12 * dt.year + dt.month + k := by omega
  omega

theorem rd_setFullYear (dt : Date) (hv : dt.Valid) :
    toRataDie dt < toRataDie (mkDate (dt.year + 1) dt.month dt.day) := by
  obtain ⟨hm, hd1, hd2⟩ := hv
  rw [toRataDie_mkDate _ _ _ (by omega), toRataDie_eq_monthStart,
    monthStartRD_eq_msIdx _ _ hm]
  have hlt : msIdx (12 * dt.year + dt.month) < msIdx (12 * (dt.year + 1) + dt.month) :=
    msIdx_strictMono (by omega)
  omega

/-!  Weekday alignment. -/

theorem getDay_bounds (dt : Date) : 0 ≤ getDay dt ∧ getDay dt ≤ 6 := by
  unfold getDay
  constructor
  · exact Int.emod_nonneg _ (by omega)
  · have := Int.emod_lt_of_pos (toRataDie dt + 6) (show (0 : Int) < 7 by omega)
    omega

theorem alignToWeekday_spec (dt : Date) (w : Nat) (hv : dt.Valid) :
    toRataDie dt + 1 ≤ toRataDie (alignToWeekday dt w) ∧
    (w ≤ 6 → toRataDie (alignToWeekday dt w) ≤ toRataDie dt + 7) ∧
    (w ≤ 6 → getDay (alignToWeekday dt w) = w) ∧
    (getDay dt = w → toRataDie (alignToWeekday dt w) = toRataDie dt + 7) ∧
    (alignToWeekday dt w).Valid := by
  obtain ⟨hb1, hb2⟩ := getDay_bounds dt
  obtain ⟨hm, hd1, hd2⟩ := hv
  have halign : alignToWeekday dt w =
      mkDate dt.year dt.month ((dt.day : Int) +
        (if (w : Int) - getDay dt ≤ 0 then (w : Int) - getDay dt + 7
         else (w : Int) - getDay dt)) := rfl
  set c := getDay dt with hc
  set Δ : Int := if (w : Int) - c ≤ 0 then (w : Int) - c + 7 else (w : Int) - c with hΔ
  have hΔ1 : 1 ≤ Δ := by
    split_ifs at hΔ <;> omega
  have hrd : toRataDie (mkDate dt.year dt.month ((dt.day : Int) + Δ)) = toRataDie dt + Δ :=
    rd_setDate dt Δ ⟨hm, hd1, hd2⟩ (by omega)
  rw [halign]
  refine ⟨by omega, ?_, ?_, ?_, mkDate_valid _ _ _⟩
  · intro hw
    split_ifs at hΔ <;> omega
  · intro hw
    unfold getDay
    rw [hrd]
    have hcdef : c = (toRataDie dt + 6) % 7 := hc
    split_ifs at hΔ <;> omega
  · intro hdw
    rw [hrd]
    have h0 : (w : Int) - c = 0 := by omega
    split_ifs at hΔ <;> omega

/-!  Season start dates. -/

theorem normForwardGo_eq_self (fuel y m d : Nat) (h2 : d ≤ daysInMonthL (isLeap y) m) :
    normForwardGo fuel y m d = ⟨y, m, d⟩ := by
  cases fuel with
  | zero => rfl
  | succ fuel =>
    unfold normForwardGo
    rw [if_neg (by omega)]

theorem mkDate_eq_self (y m d : Nat) (hm : m ≤ 11) (h1 : 1 ≤ d)
    (h2 : d ≤ daysInMonthL (isLeap y) m) : mkDate y m d = ⟨y, m, d⟩ := by
  unfold mkDate
  have hmd : m / 12 = 0 := by omega
  have hmm : m % 12 = m := by omega
  rw [if_pos (by omega : (1 : Int) ≤ (d : Int))]
  simp only [hmd, hmm, Int.toNat_natCast, Nat.add_zero]
  exact normForwardGo_eq_self _ _ _ _ h2

theorem getSeasonStartDate_spring (y : Nat) :
    getSeasonStartDate .seasonal_spring y = ⟨y, 2, 20⟩ := by
  unfold getSeasonStartDate
  exact mkDate_eq_self y 2 20 (by omega) (by omega) (by unfold daysInMonthL; split_ifs <;> omega)

theorem getSeasonStartDate_summer (y : Nat) :
    getSeasonStartDate .seasonal_summer y = ⟨y, 5, 21⟩ := by
  unfold getSeasonStartDate
  exact mkDate_eq_self y 5 21 (by omega) (by omega) (by unfold daysInMonthL; split_ifs <;> omega)

theorem getSeasonStartDate_fall (y : Nat) :
    getSeasonStartDate .seasonal_fall y = ⟨y, 8, 22⟩ := by
  unfold getSeasonStartDate
  exact mkDate_eq_self y 8 22 (by omega) (by omega) (by unfold daysInMonthL; split_ifs <;> omega)

theorem getSeasonStartDate_winter (y : Nat) :
    getSeasonStartDate .seasonal_winter y = ⟨y, 11, 21⟩ := by
  unfold getSeasonStartDate
  exact mkDate_eq_self y 11 21 (by omega) (by omega) (by unfold daysInMonthL; split_ifs <;> omega)

/-- Any valid date of year `y` has a day number below Jan 1 of year
`y + 1`. -/
theorem rd_lt_nextYearStart (dt : Date) (hv : dt.Valid) :
    toRataDie dt < daysBeforeYear (dt.year + 1) := by
  obtain ⟨hm, hd1, hd2⟩ := hv
  rw [toRataDie_eq_monthStart]
  unfold monthStartRD
  have h1 : daysBeforeMonthL (isLeap dt.year) (dt.month + 1) =
      daysBeforeMonthL (isLeap dt.year) dt.month + daysInMonthL (isLeap dt.year) dt.month := rfl
  have h2 : daysBeforeMonthL (isLeap dt.year) (dt.month + 1) ≤
      daysBeforeMonthL (isLeap dt.year) 12 := daysBeforeMonthL_mono _ (by omega)
  have h3 : daysBeforeYear (dt.year + 1) = daysBeforeYear dt.year + daysInYear dt.year := rfl
  have h4 := daysInYear_eq dt.year
  omega

/-- The seasonal branches of `calculateNextDueDate` land strictly after any
valid date of the anchor's year. -/
theorem rd_lt_seasonNextYear (dt : Date) (hv : dt.Valid) (m d : Nat) (hd : 1 ≤ d) :
    toRataDie dt < toRataDie ⟨dt.year + 1, m, d⟩ := by
  have h1 := rd_lt_nextYearStart dt hv
  have h2 : toRataDie ⟨dt.year + 1, m, d⟩ = (monthStartRD (dt.year + 1) m : Int) + d - 1 :=
    toRataDie_mk _ _ _
  have h3 : daysBeforeYear (dt.year + 1) ≤ monthStartRD (dt.year + 1) m := by
    unfold monthStartRD
    omega
  omega

/-!  Loop-step lemmas for `calculateNextOccurrences`. -/

theorem stepOccurrence_spec (f : Freq) (dt : Date) (hf : f.isKnown = true) (hv : dt.Valid) :
    toRataDie dt + 1 ≤ toRataDie (stepOccurrence f dt) ∧ (stepOccurrence f dt).Valid := by
  cases f with
  | daily =>
    simp only [stepOccurrence]
    refine ⟨?_, mkDate_valid _ _ _⟩
    rw [rd_setDate dt 1 hv (by omega)]
  | weekly =>
    simp only [stepOccurrence]
    refine ⟨?_, mkDate_valid _ _ _⟩
    rw [rd_setDate dt 7 hv (by omega)]
    omega
  | biweekly =>
    simp only [stepOccurrence]
    refine ⟨?_, mkDate_valid _ _ _⟩
    rw [rd_setDate dt 14 hv (by omega)]
    omega
  | monthly =>
    simp only [stepOccurrence]
    exact ⟨by have := rd_setMonth dt 1 hv (by omega); omega, mkDate_valid _ _ _⟩
  | semi_monthly =>
    simp only [stepOccurrence]
    refine ⟨?_, mkDate_valid _ _ _⟩
    rw [rd_setDate dt 15 hv (by omega)]
    omega
  | quarterly =>
    simp only [stepOccurrence]
    exact ⟨by have := rd_setMonth dt 3 hv (by omega); omega, mkDate_valid _ _ _⟩
  | semi_annual =>
    simp only [stepOccurrence]
    exact ⟨by have := rd_setMonth dt 6 hv (by omega); omega, mkDate_valid _ _ _⟩
  | annual =>
    simp only [stepOccurrence]
    exact ⟨by have := rd_setFullYear dt hv; omega, mkDate_valid _ _ _⟩
  | seasonal_spring =>
    simp only [stepOccurrence]
    exact ⟨by have := rd_setFullYear dt hv; omega, mkDate_valid _ _ _⟩
  | seasonal_summer =>
    simp only [stepOccurrence]
    exact ⟨by have := rd_setFullYear dt hv; omega, mkDate_valid _ _ _⟩
  | seasonal_fall =>
    simp only [stepOccurrence]
    exact ⟨by have := rd_setFullYear dt hv; omega, mkDate_valid _ _ _⟩
  | seasonal_winter =>
    simp only [stepOccurrence]
    exact ⟨by have := rd_setFullYear dt hv; omega, mkDate_valid _ _ _⟩
  | unknown b => simp [Freq.isKnown] at hf

theorem occurrencesGo_none_unknown (b : Bool) (endD : Date) (fuel : Nat) :
    ∀ cur : Date, toRataDie cur ≤ toRataDie endD →
      occurrencesGo (.unknown b) endD fuel cur = none := by
  induction fuel with
  | zero => intro cur _; rfl
  | succ fuel ih =>
    intro cur h
    unfold occurrencesGo
    rw [if_pos h, show stepOccurrence (.unknown b) cur = cur from rfl, ih cur h]
    rfl

theorem occurrencesGo_some (f : Freq) (endD : Date) (hf : f.isKnown = true) (fuel : Nat) :
    ∀ cur : Date, cur.Valid →
      toRataDie endD < toRataDie cur + fuel →
      ∃ ds, occurrencesGo f endD (fuel + 1) cur = some ds := by
  induction fuel with
  | zero =>
    intro cur _ h
    unfold occurrencesGo
    rw [if_neg (by omega)]
    exact ⟨[], rfl⟩
  | succ fuel ih =>
    intro cur hv hfuel
    unfold occurrencesGo
    by_cases hle : toRataDie cur ≤ toRataDie endD
    · rw [if_pos hle]
      obtain ⟨hadv, hval⟩ := stepOccurrence_spec f cur hf hv
      obtain ⟨ds, hds⟩ := ih (stepOccurrence f cur) hval (by omega)
      exact ⟨cur :: ds, by rw [hds]; rfl⟩
    · rw [if_neg hle]
      exact ⟨[], rfl⟩

theorem rd_le_windowEnd (start : Date) (months : Nat) (hv : start.Valid) :
    toRataDie start ≤ toRataDie (mkDate start.year (start.month + months) start.day) := by
  obtain ⟨hm, hd1, hd2⟩ := hv
  rw [toRataDie_mkDate _ _ _ (by omega), toRataDie_eq_monthStart,
    monthStartRD_eq_msIdx _ _ hm]
  have hmono := msIdx_strictMono.monotone
    (show 12 * start.year + start.month ≤ 12 * start.year + (start.month + months) by omega)
  omega

/-!  Claim theorems. -/

/-- C6: for every one of the twelve recognized frequencies and every
(valid) anchor date, `calculateNextDueDate` returns a date strictly after
the midnight-normalized anchor, for any optional preferred weekday. -/
theorem claim_c6_monotonicity (f : Freq) (d : Date) (pw : Option Nat)
    (hf : f.isKnown = true) (hv : d.Valid) :
    toRataDie d < toRataDie (calculateNextDueDate f d pw) := by
  have hd1 : 1 ≤ d.day := hv.2.1
  cases f with
  | daily =>
    simp only [calculateNextDueDate]
    rw [rd_setDate d 1 hv (by omega)]
    omega
  | weekly =>
    cases pw with
    | none =>
      simp only [calculateNextDueDate]
      rw [rd_setDate d 7 hv (by omega)]
      omega
    | some w =>
      simp only [calculateNextDueDate]
      have := (alignToWeekday_spec d w hv).1
      omega
  | biweekly =>
    simp only [calculateNextDueDate]
    rw [rd_setDate d 14 hv (by omega)]
    omega
  | monthly =>
    simp only [calculateNextDueDate]
    exact rd_setMonth d 1 hv (by omega)
  | semi_monthly =>
    simp only [calculateNextDueDate]
    rw [rd_setDate d 15 hv (by omega)]
    omega
  | quarterly =>
    simp only [calculateNextDueDate]
    exact rd_setMonth d 3 hv (by omega)
  | semi_annual =>
    simp only [calculateNextDueDate]
    exact rd_setMonth d 6 hv (by omega)
  | annual =>
    simp only [calculateNextDueDate]
    exact rd_setFullYear d hv
  | seasonal_spring =>
    simp only [calculateNextDueDate, getSeasonStartDate_spring]
    exact rd_lt_seasonNextYear d hv 2 20 (by omega)
  | seasonal_summer =>
    simp only [calculateNextDueDate, getSeasonStartDate_summer]
    exact rd_lt_seasonNextYear d hv 5 21 (by omega)
  | seasonal_fall =>
    simp only [calculateNextDueDate, getSeasonStartDate_fall]
    exact rd_lt_seasonNextYear d hv 8 22 (by omega)
  | seasonal_winter =>
    simp only [calculateNextDueDate, getSeasonStartDate_winter]
    exact rd_lt_seasonNextYear d hv 11 21 (by omega)
  | unknown b => simp [Freq.isKnown] at hf

/-- Witness for C6 at a concrete input (monthly, Jan 31 of year 5). -/
theorem claim_c6_monotonicity_witness :
    Freq.isKnown .monthly = true ∧ (Date.mk 5 0 31).Valid ∧
    toRataDie ⟨5, 0, 31⟩ < toRataDie (calculateNextDueDate .monthly ⟨5, 0, 31⟩ none) :=
  ⟨by decide, by decide,
    claim_c6_monotonicity .monthly ⟨5, 0, 31⟩ none (by decide) (by decide)⟩

/-- C7: weekly recurrence with a preferred weekday `w` (0-6) lands on
weekday `w`, strictly after the anchor (never the anchor's own calendar
date), and exactly seven days later when the anchor is already on `w`. -/
theorem claim_c7_weekly_alignment (d : Date) (w : Nat) (hv : d.Valid) (hw : w ≤ 6) :
    getDay (calculateNextDueDate .weekly d (some w)) = w ∧
    toRataDie d < toRataDie (calculateNextDueDate .weekly d (some w)) ∧
    calculateNextDueDate .weekly d (some w) ≠ d ∧
    (getDay d = w → toRataDie (calculateNextDueDate .weekly d (some w)) = toRataDie d + 7) := by
  have hs := alignToWeekday_spec d w hv
  have he : calculateNextDueDate .weekly d (some w) = alignToWeekday d w := rfl
  rw [he]
  refine ⟨hs.2.2.1 hw, by have := hs.1; omega, ?_, hs.2.2.2.1⟩
  intro heq
  have h1 := hs.1
  rw [heq] at h1
  omega

/-- Witness for C7: anchor Wednesday Jan 6 of year 5 (getDay = 3),
preferred weekday 3. -/
theorem claim_c7_weekly_alignment_witness :
    (Date.mk 5 0 10).Valid ∧ (3 : Nat) ≤ 6 ∧
    (getDay (calculateNextDueDate .weekly ⟨5, 0, 10⟩ (some 3)) = 3 ∧
      toRataDie ⟨5, 0, 10⟩ < toRataDie (calculateNextDueDate .weekly ⟨5, 0, 10⟩ (some 3)) ∧
      calculateNextDueDate .weekly ⟨5, 0, 10⟩ (some 3) ≠ ⟨5, 0, 10⟩ ∧
      (getDay ⟨5, 0, 10⟩ = 3 → toRataDie (calculateNextDueDate .weekly ⟨5, 0, 10⟩ (some 3)) =
        toRataDie ⟨5, 0, 10⟩ + 7)) :=
  ⟨by decide, by decide, claim_c7_weekly_alignment ⟨5, 0, 10⟩ 3 (by decide) (by decide)⟩

/-- C8: every seasonal frequency jumps to the fixed solstice/equinox date
of the year immediately after the anchor's year (Mar 20, Jun 21, Sep 22,
Dec 21); in particular the winter result is Dec 21 of a year ≥ the
anchor's year and never the anchor's own year. -/
theorem claim_c8_seasonal_fixed_point (d : Date) (pw : Option Nat) :
    calculateNextDueDate .seasonal_spring d pw = ⟨d.year + 1, 2, 20⟩ ∧
    calculateNextDueDate .seasonal_summer d pw = ⟨d.year + 1, 5, 21⟩ ∧
    calculateNextDueDate .seasonal_fall d pw = ⟨d.year + 1, 8, 22⟩ ∧
    calculateNextDueDate .seasonal_winter d pw = ⟨d.year + 1, 11, 21⟩ ∧
    d.year ≤ (calculateNextDueDate .seasonal_winter d pw).year ∧
    (calculateNextDueDate .seasonal_winter d pw).year ≠ d.year := by
  have h1 : calculateNextDueDate .seasonal_spring d pw =
      getSeasonStartDate .seasonal_spring (d.year + 1) := rfl
  have h2 : calculateNextDueDate .seasonal_summer d pw =
      getSeasonStartDate .seasonal_summer (d.year + 1) := rfl
  have h3 : calculateNextDueDate .seasonal_fall d pw =
      getSeasonStartDate .seasonal_fall (d.year + 1) := rfl
  have h4 : calculateNextDueDate .seasonal_winter d pw =
      getSeasonStartDate .seasonal_winter (d.year + 1) := rfl
  rw [h1, h2, h3, h4, getSeasonStartDate_spring, getSeasonStartDate_summer,
    getSeasonStartDate_fall, getSeasonStartDate_winter]
  refine ⟨rfl, rfl, rfl, rfl, ?_, ?_⟩
  · show d.year ≤ d.year + 1
    omega
  · show d.year + 1 ≠ d.year
    omega

/-- C5 counterexample: for an unrecognized frequency the batch generator
does not return.  The loop body's `switch` has no `default` case, so
`current` never advances; modelled with any finite step budget the loop
fails to complete (here: the canonical budget at a concrete input). -/
theorem claim_c5_counterexample :
    calculateNextOccurrences (.unknown false) ⟨5, 0, 1⟩ 0 1 none = none := by decide

/-- C5 amended: for an unrecognized frequency the single-step
`calculateNextDueDate` does fail closed to the day after the anchor, but
`calculateNextOccurrences` does not return normally: for an unrecognized
frequency without the `seasonal_` prefix its `while` loop never advances
`current`, so it fails to complete within every finite step budget. -/
theorem claim_c5_amended (b : Bool) (d : Date) (pw : Option Nat) (startTime months : Nat)
    (hv : d.Valid) :
    toRataDie (calculateNextDueDate (.unknown b) d pw) = toRataDie d + 1 ∧
    (b = false →
      calculateNextOccurrences (.unknown b) d startTime months pw = none ∧
      ∀ fuel, occurrencesGo (.unknown b) (mkDate d.year (d.month + months) d.day) fuel d = none) := by
  have hd1 : 1 ≤ d.day := hv.2.1
  constructor
  · have he : calculateNextDueDate (.unknown b) d pw =
        mkDate d.year d.month ((d.day : Int) + 1) := rfl
    rw [he, rd_setDate d 1 hv (by omega)]
  · intro hb
    subst hb
    have hle : toRataDie d ≤ toRataDie (mkDate d.year (d.month + months) d.day) :=
      rd_le_windowEnd d months hv
    constructor
    · have he2 : calculateNextOccurrences (.unknown false) d startTime months pw =
          occurrencesGo (.unknown false) (mkDate d.year (d.month + months) d.day)
            ((toRataDie (mkDate d.year (d.month + months) d.day) - toRataDie d).toNat + 2)
            d := by
        cases pw <;> rfl
      rw [he2]
      exact occurrencesGo_none_unknown false _ _ d hle
    · intro fuel
      exact occurrencesGo_none_unknown false _ fuel d hle

/-- Witness for C5's amended claim at a concrete input. -/
theorem claim_c5_amended_witness :
    (Date.mk 5 0 1).Valid ∧
    toRataDie (calculateNextDueDate (.unknown false) ⟨5, 0, 1⟩ none) = toRataDie ⟨5, 0, 1⟩ + 1 ∧
    calculateNextOccurrences (.unknown false) ⟨5, 0, 1⟩ 0 12 none = none :=
  ⟨by decide, (claim_c5_amended false ⟨5, 0, 1⟩ none 0 12 (by decide)).1,
    ((claim_c5_amended false ⟨5, 0, 1⟩ none 0 12 (by decide)).2 rfl).1⟩

/-- C10: for every recognized non-seasonal frequency, when no
preferred-weekday alignment applies, the batch generator's first element
is the (midnight-normalized) start date itself, not a strictly future
date. -/
theorem claim_c10_batch_first_element (f : Freq) (start : Date) (startTime months : Nat)
    (pw : Option Nat) (hf : f.isKnown = true) (hs : f.isSeasonalPrefix = false)
    (hwpw : ¬(f = .weekly ∧ pw ≠ none)) (hv : start.Valid) :
    ∃ tail, calculateNextOccurrences f start startTime months pw =
      some (start :: tail) := by
  have hle : toRataDie start ≤
      toRataDie (mkDate start.year (start.month + months) start.day) :=
    rd_le_windowEnd start months hv
  have he2 : calculateNextOccurrences f start startTime months pw =
      occurrencesGo f (mkDate start.year (start.month + months) start.day)
        ((toRataDie (mkDate start.year (start.month + months) start.day) -
          toRataDie start).toNat + 2) start := by
    rcases pw with _ | w
    · cases f <;>
        first
        | exact Bool.noConfusion hs
        | exact Bool.noConfusion hf
        | rfl
    · have hfw : f ≠ .weekly := fun h => hwpw ⟨h, fun hno => Option.noConfusion hno⟩
      cases f <;>
        first
        | exact Bool.noConfusion hs
        | exact Bool.noConfusion hf
        | exact absurd rfl hfw
        | rfl
  rw [he2]
  set endD := mkDate start.year (start.month + months) start.day with hend
  set t : Nat := (toRataDie endD - toRataDie start).toNat with ht
  have hfuel : t + 2 = (t + 1) + 1 := rfl
  rw [hfuel]
  unfold occurrencesGo
  rw [if_pos hle]
  obtain ⟨hadv, hval⟩ := stepOccurrence_spec f start hf hv
  have hbound : toRataDie endD < toRataDie (stepOccurrence f start) + t := by omega
  obtain ⟨ds, hds⟩ := occurrencesGo_some f endD hf t (stepOccurrence f start) hval hbound
  rw [hds]
  exact ⟨ds, rfl⟩

/-- Witness for C10 at a concrete input (daily, Jan 1 of year 5, one
month). -/
theorem claim_c10_batch_first_element_witness :
    Freq.isKnown .daily = true ∧ Freq.isSeasonalPrefix .daily = false ∧
    (Date.mk 5 0 1).Valid ∧
    ∃ tail, calculateNextOccurrences .daily ⟨5, 0, 1⟩ 0 1 none =
      some (Date.mk 5 0 1 :: tail) :=
  ⟨by decide, by decide, by decide,
    claim_c10_batch_first_element .daily ⟨5, 0, 1⟩ 0 1 none (by decide) (by decide)
      (by simp) (by decide)⟩

/-- Unfolding of the classifier on a present due date. -/
theorem getTaskUrgencyTier_eq (today : Date) (f : Option Freq) (due : Date) :
    getTaskUrgencyTier today f (some due) =
      (if getDaysUntilDue today due < 0 then .overdue
       else if (f = some .daily ∨ f = some .weekly) ∧ getDaysUntilDue today due = 0 then
         .primary
       else if getDaysUntilDue today due ≤ (((f.bind URGENCY_WINDOWS).getD 7 : Nat) : Int) then
         .urgent
       else .get_ahead) := rfl

/-- C3: the classifier returns `get_ahead` on a null due date; `overdue`
whenever `daysUntilDue < 0` regardless of frequency; `primary` for
daily/weekly due today; otherwise `urgent` exactly when `daysUntilDue` is
within the fixed per-frequency window (daily/weekly 0, biweekly 3,
semi_monthly 5, monthly 7, quarterly 10, seasonal/semi_annual/annual 14);
in particular weekly due yesterday is overdue, monthly due in 5 days is
urgent, annual due in 30 days is get_ahead. -/
theorem claim_c3_classifier (today : Date) (f : Freq) (due : Date)
    (_hf : f.isKnown = true) :
    getTaskUrgencyTier today (some f) none = .get_ahead ∧
    (getDaysUntilDue today due < 0 →
      getTaskUrgencyTier today (some f) (some due) = .overdue) ∧
    ((f = .daily ∨ f = .weekly) → getDaysUntilDue today due = 0 →
      getTaskUrgencyTier today (some f) (some due) = .primary) ∧
    (0 ≤ getDaysUntilDue today due →
      ¬((f = .daily ∨ f = .weekly) ∧ getDaysUntilDue today due = 0) →
      getTaskUrgencyTier today (some f) (some due) =
        (if getDaysUntilDue today due ≤ (((URGENCY_WINDOWS f).getD 7 : Nat) : Int) then
          .urgent
         else .get_ahead)) ∧
    (URGENCY_WINDOWS .daily = some 0 ∧ URGENCY_WINDOWS .weekly = some 0 ∧
      URGENCY_WINDOWS .biweekly = some 3 ∧ URGENCY_WINDOWS .semi_monthly = some 5 ∧
      URGENCY_WINDOWS .monthly = some 7 ∧ URGENCY_WINDOWS .quarterly = some 10 ∧
      URGENCY_WINDOWS .seasonal_spring = some 14 ∧
      URGENCY_WINDOWS .seasonal_summer = some 14 ∧
      URGENCY_WINDOWS .seasonal_fall = some 14 ∧
      URGENCY_WINDOWS .seasonal_winter = some 14 ∧
      URGENCY_WINDOWS .semi_annual = some 14 ∧ URGENCY_WINDOWS .annual = some 14) ∧
    getTaskUrgencyTier exToday (some .weekly) (some ⟨5, 0, 9⟩) = .overdue ∧
    getTaskUrgencyTier exToday (some .monthly) (some ⟨5, 0, 15⟩) = .urgent ∧
    getTaskUrgencyTier exToday (some .annual) (some ⟨5, 1, 9⟩) = .get_ahead := by
  refine ⟨rfl, ?_, ?_, ?_, by decide, by decide, by decide, by decide⟩
  · intro h
    rw [getTaskUrgencyTier_eq, if_pos h]
  · intro hfw h0
    have hor : (some f = some Freq.daily ∨ some f = some Freq.weekly) := by
      rcases hfw with h | h <;> simp [h]
    rw [getTaskUrgencyTier_eq, if_neg (by omega), if_pos ⟨hor, h0⟩]
  · intro hn hne
    have hcond : ¬((some f = some Freq.daily ∨ some f = some Freq.weekly) ∧
        getDaysUntilDue today due = 0) := by
      rintro ⟨hor, h0⟩
      refine hne ⟨?_, h0⟩
      rcases hor with h | h
      · exact Or.inl (Option.some_inj.mp h)
      · exact Or.inr (Option.some_inj.mp h)
    have hb : (Option.bind (some f) URGENCY_WINDOWS) = URGENCY_WINDOWS f := rfl
    rw [getTaskUrgencyTier_eq, if_neg (by omega), if_neg hcond, hb]

/-- Witness for C3 (monthly task due in five days, classified urgent). -/
theorem claim_c3_classifier_witness :
    Freq.isKnown .monthly = true ∧
    getDaysUntilDue exToday ⟨5, 0, 15⟩ = 5 ∧
    getTaskUrgencyTier exToday (some .monthly) (some ⟨5, 0, 15⟩) =
      (if getDaysUntilDue exToday ⟨5, 0, 15⟩ ≤
          (((URGENCY_WINDOWS .monthly).getD 7 : Nat) : Int) then .urgent
       else .get_ahead) :=
  ⟨by decide, by decide,
    (claim_c3_classifier exToday .monthly ⟨5, 0, 15⟩ (by decide)).2.2.2.1
      (by decide) (by decide)⟩

/-!  Comparator characterization. -/

theorem compareTasks_lt_iff (pm : Nat → Option Date) (today : Date) (a b : UserTask) :
    compareTasks pm today a b < 0 ↔ lexLt (taskKey pm today a) (taskKey pm today b) := by
  simp only [compareTasks, taskKey, lexLt]
  split_ifs <;> omega

theorem compareTasks_eq_iff (pm : Nat → Option Date) (today : Date) (a b : UserTask) :
    compareTasks pm today a b = 0 ↔ taskKey pm today a = taskKey pm today b := by
  simp only [compareTasks, taskKey, Prod.mk.injEq]
  split_ifs <;> omega

theorem compareTasks_le_iff (pm : Nat → Option Date) (today : Date) (a b : UserTask) :
    compareTasks pm today a b ≤ 0 ↔
      (lexLt (taskKey pm today a) (taskKey pm today b) ∨
        (tierOrder (getTaskTier pm today a) = tierOrder (getTaskTier pm today b) ∧
          getFrequencyPriority a.frequency = getFrequencyPriority b.frequency ∧
          taskTimeOf a = taskTimeOf b)) := by
  simp only [compareTasks, taskKey, lexLt]
  split_ifs <;> omega

theorem compareTasks_trans (pm : Nat → Option Date) (today : Date) (a b c : UserTask)
    (h1 : compareTasks pm today a b ≤ 0) (h2 : compareTasks pm today b c ≤ 0) :
    compareTasks pm today a c ≤ 0 := by
  rw [compareTasks_le_iff] at h1 h2 ⊢
  simp only [taskKey, lexLt] at h1 h2 ⊢
  omega

theorem compareTasks_total (pm : Nat → Option Date) (today : Date) (a b : UserTask) :
    compareTasks pm today a b ≤ 0 ∨ compareTasks pm today b a ≤ 0 := by
  rw [compareTasks_le_iff, compareTasks_le_iff]
  simp only [taskKey, lexLt]
  omega

theorem getSortedActiveTasks_pairwise (pm : Nat → Option Date) (today : Date)
    (cids : List Nat) (tasks : List UserTask) :
    List.Pairwise (fun x y => compareTasks pm today x y ≤ 0)
      (getSortedActiveTasks pm today cids tasks) := by
  unfold getSortedActiveTasks
  have hp := @List.sorted_mergeSort UserTask
    (fun x y : UserTask => decide (compareTasks pm today x y ≤ 0))
    (fun x y z hxy hyz => by
      simp only [decide_eq_true_eq] at hxy hyz ⊢
      exact compareTasks_trans pm today x y z hxy hyz)
    (fun x y => by
      simp only [Bool.or_eq_true, decide_eq_true_eq]
      exact compareTasks_total pm today x y)
    (tasks.filter (fun t => !(cids.contains t.id)))
  exact hp.imp (fun h => by simpa using h)

/-- C4: the allocator's comparator realizes the ascending composite key
(urgency-tier rank 0-3, then the fixed frequency priority with unknown
frequencies ranked 10, then estimated minutes); consequently an overdue
task sorts strictly before any non-overdue task, and the sorted list it
produces is ordered by the comparator throughout. -/
theorem claim_c4_ordering (pm : Nat → Option Date) (today : Date) (a b : UserTask)
    (cids : List Nat) (tasks : List UserTask) :
    (compareTasks pm today a b < 0 ↔ lexLt (taskKey pm today a) (taskKey pm today b)) ∧
    (compareTasks pm today a b = 0 ↔ taskKey pm today a = taskKey pm today b) ∧
    (tierOrder .overdue = 0 ∧ tierOrder .urgent = 1 ∧ tierOrder .primary = 2 ∧
      tierOrder .get_ahead = 3) ∧
    (getFrequencyPriority (some .daily) = 1 ∧ getFrequencyPriority (some .weekly) = 2 ∧
      getFrequencyPriority (some .biweekly) = 3 ∧
      getFrequencyPriority (some .semi_monthly) = 4 ∧
      getFrequencyPriority (some .monthly) = 5 ∧
      getFrequencyPriority (some .quarterly) = 6 ∧
      getFrequencyPriority (some .seasonal_spring) = 7 ∧
      getFrequencyPriority (some .seasonal_summer) = 7 ∧
      getFrequencyPriority (some .seasonal_fall) = 7 ∧
      getFrequencyPriority (some .seasonal_winter) = 7 ∧
      getFrequencyPriority (some .semi_annual) = 8 ∧
      getFrequencyPriority (some .annual) = 9 ∧
      getFrequencyPriority (some (.unknown false)) = 10 ∧
      getFrequencyPriority (some (.unknown true)) = 10 ∧
      getFrequencyPriority none = 10) ∧
    (getTaskTier pm today a = .overdue → getTaskTier pm today b ≠ .overdue →
      compareTasks pm today a b < 0) ∧
    List.Pairwise (fun x y => compareTasks pm today x y ≤ 0)
      (getSortedActiveTasks pm today cids tasks) := by
  refine ⟨compareTasks_lt_iff pm today a b, compareTasks_eq_iff pm today a b,
    by decide, by decide, ?_, getSortedActiveTasks_pairwise pm today cids tasks⟩
  intro ha hb
  have h1 : tierOrder (getTaskTier pm today a) = 0 := by rw [ha]; rfl
  have h2 : 1 ≤ tierOrder (getTaskTier pm today b) := by
    cases h : getTaskTier pm today b
    · exact absurd h hb
    · decide
    · decide
    · decide
  rw [compareTasks_lt_iff]
  simp only [taskKey, lexLt]
  omega

/-- Witness for C4's overdue-dominance implication at concrete tasks. -/
theorem claim_c4_ordering_witness :
    getTaskTier exPendingMap exToday exOverdue = .overdue ∧
    getTaskTier exPendingMap exToday exUrgent ≠ .overdue ∧
    compareTasks exPendingMap exToday exOverdue exUrgent < 0 :=
  ⟨by decide, by decide,
    (claim_c4_ordering exPendingMap exToday exOverdue exUrgent [] []).2.2.2.2.1
      (by decide) (by decide)⟩

/-!  Allocator invariants. -/

theorem allocGo_totalTime (pm : Nat → Option Date) (today : Date) (budget : Nat) :
    ∀ (l : List UserTask) (t0 : Nat), t0 ≤ budget →
      (allocGo pm today budget l t0).totalTime =
        t0 + sumTimes (allocGo pm today budget l t0).budgeted ∧
      (allocGo pm today budget l t0).totalTime ≤ budget := by
  intro l
  induction l with
  | nil =>
    intro t0 h0
    simp [allocGo, sumTimes]
    exact h0
  | cons task rest ih =>
    intro t0 h0
    simp only [allocGo]
    by_cases hfit : t0 + taskTimeOf task ≤ budget
    · rw [if_pos hfit]
      obtain ⟨ih1, ih2⟩ := ih (t0 + taskTimeOf task) hfit
      simp only [sumTimes, List.map_cons, List.sum_cons]
      simp only [sumTimes] at ih1
      constructor
      · omega
      · exact ih2
    · rw [if_neg hfit]
      obtain ⟨ih1, ih2⟩ := ih t0 h0
      exact ⟨ih1, ih2⟩

theorem allocGo_perm (pm : Nat → Option Date) (today : Date) (budget : Nat) :
    ∀ (l : List UserTask) (t0 : Nat),
      ((allocGo pm today budget l t0).budgeted ++
        (allocGo pm today budget l t0).overflow).Perm l := by
  intro l
  induction l with
  | nil => intro t0; simp [allocGo]
  | cons task rest ih =>
    intro t0
    simp only [allocGo]
    by_cases hfit : t0 + taskTimeOf task ≤ budget
    · rw [if_pos hfit]
      simp only [List.cons_append]
      exact (ih (t0 + taskTimeOf task)).cons task
    · rw [if_neg hfit]
      exact List.perm_middle.trans ((ih t0).cons task)

/-- C2: the allocator walks the sorted list once with a running total; a
task joins `budgeted` exactly when the total plus its minutes (default 10)
stays within the budget, otherwise it joins `overflow` with the total
unchanged.  Hence the budgeted minutes never exceed the budget and
`budgeted ++ overflow` is a permutation of the active input; the claim's
budget-75 scenario and a later-shorter-task admission after an earlier
rejection are verified concretely. -/
theorem claim_c2_allocator (pm : Nat → Option Date) (today : Date) (cids : List Nat)
    (tasks : List UserTask) (budget : Nat) :
    sumTimes (getBudgetedTasks pm today cids tasks budget).budgeted ≤ budget ∧
    ((getBudgetedTasks pm today cids tasks budget).budgeted ++
      (getBudgetedTasks pm today cids tasks budget).overflow).Perm
      (tasks.filter (fun t => !(cids.contains t.id))) ∧
    (∀ (task : UserTask) (rest : List UserTask) (t : Nat),
      allocGo pm today budget (task :: rest) t =
        (if t + taskTimeOf task ≤ budget then
          { allocGo pm today budget rest (t + taskTimeOf task) with
              budgeted :=
                task :: (allocGo pm today budget rest (t + taskTimeOf task)).budgeted
              overdueCount :=
                if getTaskTier pm today task = .overdue then
                  (allocGo pm today budget rest (t + taskTimeOf task)).overdueCount + 1
                else (allocGo pm today budget rest (t + taskTimeOf task)).overdueCount }
         else
          { allocGo pm today budget rest t with
              overflow := task :: (allocGo pm today budget rest t).overflow
              overdueInOverflow :=
                if getTaskTier pm today task = .overdue then
                  (allocGo pm today budget rest t).overdueInOverflow + 1
                else (allocGo pm today budget rest t).overdueInOverflow })) ∧
    (getBudgetedTasks exPendingMap exToday [] [exOverdue, exUrgent, exPrimary] 75).budgeted =
      [exOverdue, exUrgent] ∧
    (getBudgetedTasks exPendingMap exToday [] [exOverdue, exUrgent, exPrimary] 75).overflow =
      [exPrimary] ∧
    (getBudgetedTasks exPendingMap exToday [] [exOverdue, exUrgent, exQuick] 40).budgeted =
      [exOverdue, exQuick] ∧
    (getBudgetedTasks exPendingMap exToday [] [exOverdue, exUrgent, exQuick] 40).overflow =
      [exUrgent] := by
  have heq : getBudgetedTasks pm today cids tasks budget =
      allocGo pm today budget (getSortedActiveTasks pm today cids tasks) 0 := rfl
  have hsort1 : getSortedActiveTasks exPendingMap exToday [] [exOverdue, exUrgent, exPrimary] =
      [exOverdue, exUrgent, exPrimary] := by
    unfold getSortedActiveTasks
    exact List.mergeSort_of_sorted (by decide)
  have hsort2 : getSortedActiveTasks exPendingMap exToday [] [exOverdue, exUrgent, exQuick] =
      [exOverdue, exUrgent, exQuick] := by
    unfold getSortedActiveTasks
    exact List.mergeSort_of_sorted (by decide)
  have hb1 : getBudgetedTasks exPendingMap exToday [] [exOverdue, exUrgent, exPrimary] 75 =
      allocGo exPendingMap exToday 75 [exOverdue, exUrgent, exPrimary] 0 := by
    show allocGo exPendingMap exToday 75
      (getSortedActiveTasks exPendingMap exToday [] [exOverdue, exUrgent, exPrimary]) 0 = _
    rw [hsort1]
  have hb2 : getBudgetedTasks exPendingMap exToday [] [exOverdue, exUrgent, exQuick] 40 =
      allocGo exPendingMap exToday 40 [exOverdue, exUrgent, exQuick] 0 := by
    show allocGo exPendingMap exToday 40
      (getSortedActiveTasks exPendingMap exToday [] [exOverdue, exUrgent, exQuick]) 0 = _
    rw [hsort2]
  refine ⟨?_, ?_, fun task rest t => rfl, by rw [hb1]; decide, by rw [hb1]; decide,
    by rw [hb2]; decide, by rw [hb2]; decide⟩
  · rw [heq]
    have h := allocGo_totalTime pm today budget
      (getSortedActiveTasks pm today cids tasks) 0 (Nat.zero_le _)
    omega
  · rw [heq]
    exact (allocGo_perm pm today budget (getSortedActiveTasks pm today cids tasks) 0).trans
      (List.mergeSort_perm _ _)

/-- C1 counterexample: on a store holding exactly one pending occurrence
of task 1, `handleMarkDone` issues no UPDATE at all (its two writes are
both INSERTs), and afterwards the pending occurrences of the task number
two, not one — the old pending occurrence is still pending. -/
theorem claim_c1_counterexample :
    (handleMarkDoneOps c1Task c1Today).filter StoreOp.isUpdate = [] ∧
    (pendingEventsFor (applyOps c1Store (handleMarkDoneOps c1Task c1Today)) 1).length = 2 ∧
    (applyOps c1Store (handleMarkDoneOps c1Task c1Today)).head? =
      some (0, ⟨1, .pending, ⟨5, 0, 14⟩, none⟩) := by decide

/-- C1 amended: completing a task issues two INSERTs — a completed event
dated today and a new pending occurrence due at
`calculateNextDueDate(frequency, today, preferredWeekday when weekly)` —
and no UPDATE; the old pending occurrence is untouched, so a pending read
afterwards returns the previously pending occurrences plus exactly one new
pending occurrence with that due date. -/
theorem claim_c1_completion_inserts (store : Store) (task : UserTask) (today : Date)
    (f : Freq) (hf : task.frequency = some f) :
    handleMarkDoneOps task today =
      [.insertRow (markDoneCompletedRow task today),
        .insertRow (markDonePendingRow task f today)] ∧
    (handleMarkDoneOps task today).filter StoreOp.isUpdate = [] ∧
    pendingEventsFor (applyOps store (handleMarkDoneOps task today)) task.id =
      pendingEventsFor store task.id ++
        [(store.length + 1, markDonePendingRow task f today)] ∧
    (markDonePendingRow task f today).due_date =
      calculateNextDueDate f today
        (if f = .weekly then task.preferred_weekday else none) := by
  have hops : handleMarkDoneOps task today =
      [.insertRow (markDoneCompletedRow task today),
        .insertRow (markDonePendingRow task f today)] := by
    unfold handleMarkDoneOps
    rw [hf]
  refine ⟨hops, by rw [hops]; rfl, ?_, rfl⟩
  rw [hops]
  show pendingEventsFor ((store ++ [(store.length, markDoneCompletedRow task today)]) ++
    [((store ++ [(store.length, markDoneCompletedRow task today)]).length,
      markDonePendingRow task f today)]) task.id = _
  unfold pendingEventsFor
  rw [List.filter_append, List.filter_append]
  simp [markDoneCompletedRow, markDonePendingRow, List.length_append]

/-- Witness for C1's amended claim at the counterexample's concrete
store. -/
theorem claim_c1_completion_inserts_witness :
    c1Task.frequency = some .monthly ∧
    pendingEventsFor (applyOps c1Store (handleMarkDoneOps c1Task c1Today)) 1 =
      pendingEventsFor c1Store 1 ++ [(2, markDonePendingRow c1Task .monthly c1Today)] :=
  ⟨by decide,
    (claim_c1_completion_inserts c1Store c1Task c1Today .monthly (by decide)).2.2.1⟩

/-- C9: in the completion transition, a failed next-occurrence insert is
only warned about — the completed status and the completed-event write
stand, and no pending row is added — while a failed completion insert
triggers the alert path, reverts the optimistic completed flag, and leaves
the store untouched. -/
theorem claim_c9_failure_semantics (store : Store) (ids : List Nat) (task : UserTask)
    (today : Date) (f : Freq) (hf : task.frequency = some f) :
    (task.id ∈ (handleMarkDone store ids task today false true).completedTaskIds ∧
      (handleMarkDone store ids task today false true).warned = true ∧
      (handleMarkDone store ids task today false true).alerted = false ∧
      (handleMarkDone store ids task today false true).store =
        store ++ [(store.length, markDoneCompletedRow task today)] ∧
      pendingEventsFor (handleMarkDone store ids task today false true).store task.id =
        pendingEventsFor store task.id) ∧
    (∀ nextError : Bool,
      task.id ∉ (handleMarkDone store ids task today true nextError).completedTaskIds ∧
      (handleMarkDone store ids task today true nextError).alerted = true ∧
      (handleMarkDone store ids task today true nextError).store = store) := by
  constructor
  · have he : handleMarkDone store ids task today false true =
        { completedTaskIds :=
            if ids.contains task.id then ids else task.id :: ids
          store := applyOp store (.insertRow (markDoneCompletedRow task today))
          warned := true
          alerted := false } := by
      unfold handleMarkDone
      rw [hf]
      rfl
    rw [he]
    refine ⟨?_, rfl, rfl, rfl, ?_⟩
    · by_cases hmem : ids.contains task.id
      · simp only [if_pos hmem]
        exact List.mem_of_elem_eq_true hmem
      · simp only [if_neg hmem]
        exact List.mem_cons_self _ _
    · show pendingEventsFor (store ++ [(store.length, markDoneCompletedRow task today)])
        task.id = _
      unfold pendingEventsFor
      rw [List.filter_append]
      simp [markDoneCompletedRow]
  · intro nextError
    have he : handleMarkDone store ids task today true nextError =
        { completedTaskIds :=
            (if ids.contains task.id then ids else task.id :: ids).filter
              (fun i => i ≠ task.id)
          store := store
          warned := false
          alerted := true } := rfl
    rw [he]
    refine ⟨?_, rfl, rfl⟩
    intro hmem
    have := List.of_mem_filter hmem
    simp at this

/-- Witness for C9 at the concrete counterexample inputs. -/
theorem claim_c9_failure_semantics_witness :
    c1Task.frequency = some .monthly ∧
    c1Task.id ∈ (handleMarkDone c1Store [] c1Task c1Today false true).completedTaskIds ∧
    (handleMarkDone c1Store [] c1Task c1Today false true).warned = true ∧
    c1Task.id ∉ (handleMarkDone c1Store [] c1Task c1Today true false).completedTaskIds ∧
    (handleMarkDone c1Store [] c1Task c1Today true false).store = c1Store :=
  ⟨by decide,
    (claim_c9_failure_semantics c1Store [] c1Task c1Today .monthly (by decide)).1.1,
    (claim_c9_failure_semantics c1Store [] c1Task c1Today .monthly (by decide)).1.2.1,
    ((claim_c9_failure_semantics c1Store [] c1Task c1Today .monthly (by decide)).2 false).1,
    ((claim_c9_failure_semantics c1Store [] c1Task c1Today .monthly (by decide)).2 false).2.2⟩
